import Mathlib

/-!
Shallow embedding of the pddm-network consensus core
(src/agents/agent.py and src/world.py) together with proofs of the
specification claims about it.

Preference relations are finite sets of ordered pairs of state indices;
probability distributions are lists of rationals (the Python floats are
modelled as exact rationals).  Randomness is modelled by explicit
oracle parameters: a Boolean per random test, and a picking function per
call to random.sample / random.choice.
-/

namespace PDDM

/-- An ordered pair (better, worse) of state indices. -/
abbrev Pair : Type := ℕ × ℕ

/-- A preference relation: a finite set of (better, worse) pairs. -/
abbrev PrefRel : Type := Finset Pair

/-- Consistency filtering (spec section 4.1, inlined in the source at
src/agents/agent.py line 39): keep exactly the pairs whose reverse is not
also present. -/
def filter_consistent (R : PrefRel) : PrefRel :=
  R.filter (fun p => (p.2, p.1) ∉ R)

/-- One composition step towards the transitive closure: add (x,z) for every
(x,y) and (y,z) already present. -/
def tc_step (R : PrefRel) : PrefRel :=
  R ∪ ((R ×ˢ R).filter (fun q => q.1.2 = q.2.1)).image (fun q => (q.1.1, q.2.2))

/-- Modelled from the spec: `utilities/operators.transitive_closure` is
imported by src/agents/agent.py and src/world.py but its code is not under
src/.  Spec section 4.1: "returns the smallest superset of `pairs` closed
under transitivity", computed with no cycle detection.  Iterating the
composition step `card + 1` times reaches the fixpoint: every new pair
comes from a path in `R`, a shortest such path repeats no node, so its
length is at most the number of nodes mentioned by `R` (at most `2·card`),
and `k` iterations cover all paths of length up to `2 ^ k`. -/
def transitive_closure (R : PrefRel) : PrefRel :=
  tc_step^[R.card + 1] R

/-- The per-agent mutable state of the ordinal agent
(src/agents/agent.py, class Agent): the preference relation and the
three counters.  `evidence`, `interactions` and `since_change` start at 0
(lines 16-18). -/
structure AgentState where
  preferences : PrefRel
  evidence : ℕ
  interactions : ℕ
  since_change : ℕ
deriving DecidableEq

/-- src/agents/agent.py lines 23-26. -/
def Agent.steady_state (a : AgentState) (threshold : ℕ) : Bool :=
  decide (threshold ≤ a.since_change)

/-- src/agents/agent.py lines 29-45.  The class-level flag
`Agent.form_closure` (set once per trial from the world configuration) is
passed explicitly as `form_closure`. -/
def Agent.combine (form_closure : Bool) (prefs1 prefs2 : PrefRel) : PrefRel :=
  let preferences := prefs1 ∪ prefs2
  let preferences := filter_consistent preferences
  if form_closure then transitive_closure preferences else preferences

/-- src/agents/agent.py lines 48-66. -/
def Agent.evidential_updating (a : AgentState) (preferences : PrefRel) : AgentState :=
  { a with
    since_change := if preferences = a.preferences then a.since_change + 1 else 0
    preferences := preferences
    evidence := a.evidence + 1 }

/-- src/agents/agent.py lines 69-88. -/
def Agent.update_preferences (a : AgentState) (preferences : PrefRel) : AgentState :=
  { a with
    since_change := if preferences = a.preferences then a.since_change + 1 else 0
    preferences := preferences
    interactions := a.interactions + 1 }

/-- src/agents/agent.py lines 91-118.  The call
`random_instance.sample(possible_evidence, 1)` is modelled by the oracle
`pick` (returning `none` exactly when the ValueError branch is taken, i.e.
when the set is empty); the test `random() > comp_error` on the noisy
branch is modelled by the Boolean oracle `rand_gt_err`; `noise_none` is
whether `noise_value is None`. -/
def Agent.find_evidence (pick : PrefRel → Option Pair) (noise_none : Bool)
    (rand_gt_err : Bool) (prefs true_prefs : PrefRel) : PrefRel :=
  let expanded := prefs ∪ prefs.image (fun p => (p.2, p.1))
  let possible := true_prefs \ expanded
  match pick possible with
  | none => ∅
  | some choice =>
    if noise_none then {choice}
    else if rand_gt_err then {choice} else {(choice.2, choice.1)}

/-- src/agents/agent.py lines 165-199 (class Bandwidth).  The two calls
`random_instance.sample(list(prefs), bandwidth_limit)` are modelled by the
oracle `sample`. -/
def Bandwidth.combine (form_closure : Bool) (sample : PrefRel → ℕ → PrefRel)
    (prefs1 prefs2 : PrefRel) (bandwidth_limit : Option ℕ) :
    PrefRel ⊕ (PrefRel × PrefRel) :=
  match bandwidth_limit with
  | none =>
    let preferences := filter_consistent (prefs1 ∪ prefs2)
    Sum.inl (if form_closure then transitive_closure preferences else preferences)
  | some limit =>
    let set1 := if limit ≤ prefs1.card then sample prefs1 limit else prefs1
    let set2 := if limit ≤ prefs2.card then sample prefs2 limit else prefs2
    let preferences1 := filter_consistent (prefs1 ∪ set2)
    let preferences2 := filter_consistent (set1 ∪ prefs2)
    if form_closure then
      Sum.inr (transitive_closure preferences1, transitive_closure preferences2)
    else
      Sum.inr (preferences1, preferences2)

/-- The per-agent state of the probabilistic agent
(src/agents/agent.py, class Probabilistic): the belief distribution plus
everything inherited from Agent. -/
structure ProbAgentState where
  belief : List ℚ
  preferences : PrefRel
  evidence : ℕ
  interactions : ℕ
  since_change : ℕ
deriving DecidableEq

/-- np.dot on two equal-length lists. -/
def dot (b1 b2 : List ℚ) : ℚ :=
  (List.zipWith (fun x y => x * y) b1 b2).sum

/-- src/agents/agent.py lines 216-251.  The source divides element-wise by
`product_sum` and returns None exactly when the result contains a NaN;
for probability vectors (non-negative entries) a NaN arises exactly when
`product_sum` is zero (each term is then 0/0), so the zero test is made
the explicit guard here. -/
def Probabilistic.combine (belief1 belief2 : List ℚ) : Option (List ℚ) :=
  let product_sum := dot belief1 belief2
  if product_sum = 0 then none
  else
    let new_belief :=
      (List.range belief1.length).map
        (fun i => belief1.getD i 0 * belief2.getD i 0 / product_sum)
    let var_lambda : ℚ := 1/10
    some (new_belief.map
      (fun belief => var_lambda * (1 / (new_belief.length : ℚ)) +
        (1 - var_lambda) * belief))

/-- src/agents/agent.py lines 301-317: derive the preference relation from
the belief.  The source iterates over all index pairs x < y (skipping
y ≤ x) and adds (x,y) if belief[x] > belief[y], (y,x) if
belief[y] > belief[x], nothing on a tie. -/
def Probabilistic.identify_preferences (belief : List ℚ) : PrefRel :=
  ((Finset.range belief.length ×ˢ Finset.range belief.length).filter
      (fun q => q.1 < q.2)).biUnion
    (fun q =>
      if belief.getD q.2 0 < belief.getD q.1 0 then {(q.1, q.2)}
      else if belief.getD q.1 0 < belief.getD q.2 0 then {(q.2, q.1)}
      else ∅)

/-- src/agents/agent.py lines 254-274. -/
def Probabilistic.evidential_updating (a : ProbAgentState) (belief : Option (List ℚ)) :
    ProbAgentState :=
  match belief with
  | none => { a with since_change := a.since_change + 1 }
  | some b =>
    { a with
      since_change := if b = a.belief then a.since_change + 1 else 0
      belief := b
      preferences := Probabilistic.identify_preferences b
      evidence := a.evidence + 1 }

/-- src/agents/agent.py lines 277-298. -/
def Probabilistic.update_preferences (a : ProbAgentState) (belief : Option (List ℚ)) :
    ProbAgentState :=
  match belief with
  | none => { a with since_change := a.since_change + 1 }
  | some b =>
    { a with
      since_change := if b = a.belief then a.since_change + 1 else 0
      belief := b
      preferences := Probabilistic.identify_preferences b
      interactions := a.interactions + 1 }

/-- src/agents/agent.py lines 362-379 (class Average): element-wise
midpoint; for rationals the result is never NaN, so the None branch is
unreachable and the operator always succeeds. -/
def Average.combine (belief1 belief2 : List ℚ) : Option (List ℚ) :=
  some (List.zipWith (fun x y => (x + y) / 2) belief1 belief2)

/-- src/world.py lines 156-162: the scheduler inspects the shape of the
combine result; a pair is applied componentwise, a single relation is
adopted by both agents (symmetric mode). -/
def apply_combine_result (r : PrefRel ⊕ (PrefRel × PrefRel)) (a1 a2 : AgentState) :
    AgentState × AgentState :=
  match r with
  | Sum.inl p => (Agent.update_preferences a1 p, Agent.update_preferences a2 p)
  | Sum.inr pq => (Agent.update_preferences a1 pq.1, Agent.update_preferences a2 pq.2)

/-- The four agent variants selectable in src/world.py (line 50). -/
inductive AgentVariant where
  | ordinal
  | bandwidth
  | probabilistic
  | average
deriving DecidableEq

/-- src/world.py lines 194-195: a missing connectivity argument is replaced
by the module-level default when one is set. -/
def resolve_connectivity (arg default : Option ℚ) : Option ℚ :=
  match arg with
  | some c => some c
  | none => default

/-- src/world.py lines 184-199: the whole validation performed at trial
setup.  argparse checks argument types only; the sole rejection (a usage
message and exit, before `initialisation` creates any agent) is a
connectivity that is still missing after defaulting.  `states`, `agents`
and the connectivity range are never checked. -/
def setup_accepts (states agents : ℤ) (connectivity default_connectivity : Option ℚ) :
    Bool :=
  (resolve_connectivity connectivity default_connectivity).isSome

/-- src/world.py lines 225-228: the bandwidth limit is not a configuration
input at all; for the bandwidth variant it is unconditionally set to
`states`, for every other variant it is None. -/
def bandwidth_limit_of (v : AgentVariant) (states : ℤ) : Option ℤ :=
  if v = AgentVariant.bandwidth then some states else none

/-! ## Properties of relations -/

/-- Asymmetry (spec section 3): the relation never contains both (x,y) and
(y,x). -/
def IsAsymmRel (R : PrefRel) : Prop := ∀ x y : ℕ, ¬((x, y) ∈ R ∧ (y, x) ∈ R)

/-- Irreflexivity: the relation contains no pair (x,x). -/
def IsIrreflRel (R : PrefRel) : Prop := ∀ x : ℕ, (x, x) ∉ R

/-- Closure under transitivity. -/
def IsTransClosedRel (R : PrefRel) : Prop :=
  ∀ x y z : ℕ, (x, y) ∈ R → (y, z) ∈ R → (x, z) ∈ R

lemma mem_filter_consistent {R : PrefRel} {p : Pair} :
    p ∈ filter_consistent R ↔ p ∈ R ∧ (p.2, p.1) ∉ R := by
  simp [filter_consistent]

lemma isAsymmRel_filter_consistent (R : PrefRel) : IsAsymmRel (filter_consistent R) := by
  rintro x y ⟨hxy, hyx⟩
  rw [mem_filter_consistent] at hxy hyx
  exact hxy.2 hyx.1

lemma mem_identify_preferences {belief : List ℚ} {p : Pair} :
    p ∈ Probabilistic.identify_preferences belief ↔
      p.1 < belief.length ∧ p.2 < belief.length ∧
        belief.getD p.2 0 < belief.getD p.1 0 := by
  unfold Probabilistic.identify_preferences
  simp only [Finset.mem_biUnion, Finset.mem_filter, Finset.mem_product, Finset.mem_range]
  constructor
  · rintro ⟨q, ⟨⟨hq1, hq2⟩, _⟩, hp⟩
    by_cases h1 : belief.getD q.2 0 < belief.getD q.1 0
    · rw [if_pos h1, Finset.mem_singleton] at hp
      subst hp
      exact ⟨hq1, hq2, h1⟩
    · rw [if_neg h1] at hp
      by_cases h2 : belief.getD q.1 0 < belief.getD q.2 0
      · rw [if_pos h2, Finset.mem_singleton] at hp
        subst hp
        exact ⟨hq2, hq1, h2⟩
      · rw [if_neg h2] at hp
        exact absurd hp (Finset.not_mem_empty p)
  · rintro ⟨h1, h2, hlt⟩
    rcases Nat.lt_trichotomy p.1 p.2 with h | h | h
    · refine ⟨(p.1, p.2), ⟨⟨h1, h2⟩, h⟩, ?_⟩
      rw [if_pos hlt]
      simp
    · rw [h] at hlt
      exact absurd hlt (lt_irrefl _)
    · refine ⟨(p.2, p.1), ⟨⟨h2, h1⟩, h⟩, ?_⟩
      rw [if_neg (not_lt_of_gt hlt), if_pos hlt]
      simp

lemma isAsymmRel_identify_preferences (belief : List ℚ) :
    IsAsymmRel (Probabilistic.identify_preferences belief) := by
  rintro x y ⟨hxy, hyx⟩
  rw [mem_identify_preferences] at hxy hyx
  exact absurd (hxy.2.2.trans hyx.2.2) (lt_irrefl _)

/-! ## Claim theorems: fusion operators and per-agent updates -/

/-- Claim C1: the ordinal `Agent.combine` is the union of the two relations with
every pair whose reverse is also in the union removed, followed by
transitive closure exactly when closure mode is on; in particular
combining {(2,1)} with {(1,0)} yields {(2,1),(1,0),(2,0)} with closure on
and {(2,1),(1,0)} with closure off. -/
theorem agent_combine_spec (relA relB : PrefRel) (p : Pair) :
    (p ∈ Agent.combine false relA relB ↔
      p ∈ relA ∪ relB ∧ (p.2, p.1) ∉ relA ∪ relB)
    ∧ Agent.combine true relA relB = transitive_closure (Agent.combine false relA relB)
    ∧ Agent.combine true {(2,1)} {(1,0)} = {(2,1),(1,0),(2,0)}
    ∧ Agent.combine false {(2,1)} {(1,0)} = {(2,1),(1,0)} :=
  ⟨by simp [Agent.combine, filter_consistent],
   by simp [Agent.combine],
   by decide,
   by decide⟩

set_option maxRecDepth 8000 in
/-- Claim C2 counterexample: with closure mode on, combining the (reachable,
individually asymmetric and transitively closed) relations {(0,1),(2,3)}
and {(1,2),(3,0)} gives a relation containing both (0,1) and (1,0): the
consistency filter removes no pair of the 4-cycle and the transitive
closure then produces both orientations, so the asymmetry invariant fails
for the output of `combine` when closure mode is on. -/
theorem combine_closure_asymmetry_fails :
    (0,1) ∈ Agent.combine true {(0,1),(2,3)} {(1,2),(3,0)} ∧
    (1,0) ∈ Agent.combine true {(0,1),(2,3)} {(1,2),(3,0)} := by decide

/-- Claim C2 (amended): every output of a combine variant with closure mode off
is asymmetric, and the relation derived from a probabilistic belief is
asymmetric. -/
theorem combine_outputs_asymmetric (relA relB : PrefRel)
    (sample : PrefRel → ℕ → PrefRel) (limit : Option ℕ) (belief : List ℚ) :
    IsAsymmRel (Agent.combine false relA relB)
    ∧ (match Bandwidth.combine false sample relA relB limit with
       | Sum.inl r => IsAsymmRel r
       | Sum.inr rr => IsAsymmRel rr.1 ∧ IsAsymmRel rr.2)
    ∧ IsAsymmRel (Probabilistic.identify_preferences belief) := by
  refine ⟨?_, ?_, isAsymmRel_identify_preferences belief⟩
  · simpa [Agent.combine] using isAsymmRel_filter_consistent (relA ∪ relB)
  · cases limit with
    | none =>
      simpa [Bandwidth.combine] using isAsymmRel_filter_consistent (relA ∪ relB)
    | some l =>
      simp only [Bandwidth.combine, Bool.false_eq_true, if_false]
      exact ⟨isAsymmRel_filter_consistent _, isAsymmRel_filter_consistent _⟩

/-- Claim C3: for every agent variant (Bandwidth inherits the ordinal updates,
Average inherits the probabilistic ones), an update with a (non-none)
value equal to the current belief increments `since_change` by 1, a
different value resets it to 0; in both cases the stored belief is
replaced and the respective counter is incremented. -/
theorem update_change_tracking (a : AgentState) (p : PrefRel)
    (pa : ProbAgentState) (b : List ℚ) :
    ((Agent.evidential_updating a p).since_change =
        if p = a.preferences then a.since_change + 1 else 0)
    ∧ (Agent.evidential_updating a p).preferences = p
    ∧ (Agent.evidential_updating a p).evidence = a.evidence + 1
    ∧ (Agent.evidential_updating a p).interactions = a.interactions
    ∧ ((Agent.update_preferences a p).since_change =
        if p = a.preferences then a.since_change + 1 else 0)
    ∧ (Agent.update_preferences a p).preferences = p
    ∧ (Agent.update_preferences a p).interactions = a.interactions + 1
    ∧ (Agent.update_preferences a p).evidence = a.evidence
    ∧ ((Probabilistic.evidential_updating pa (some b)).since_change =
        if b = pa.belief then pa.since_change + 1 else 0)
    ∧ (Probabilistic.evidential_updating pa (some b)).belief = b
    ∧ (Probabilistic.evidential_updating pa (some b)).evidence = pa.evidence + 1
    ∧ (Probabilistic.evidential_updating pa (some b)).interactions = pa.interactions
    ∧ ((Probabilistic.update_preferences pa (some b)).since_change =
        if b = pa.belief then pa.since_change + 1 else 0)
    ∧ (Probabilistic.update_preferences pa (some b)).belief = b
    ∧ (Probabilistic.update_preferences pa (some b)).interactions = pa.interactions + 1
    ∧ (Probabilistic.update_preferences pa (some b)).evidence = pa.evidence :=
  ⟨rfl, rfl, rfl, rfl, rfl, rfl, rfl, rfl, rfl, rfl, rfl, rfl, rfl, rfl, rfl, rfl⟩

/-- Claim C4: probabilistic combine is the element-wise product normalised by the
dot product, blended toward uniform with λ = 1/10; on [0.6,0.4] and
[0.3,0.7] it gives exactly [37/92, 55/92], which matches the quoted
[0.402, 0.598] to within half a unit in the third decimal place. -/
theorem probabilistic_combine_spec (b1 b2 : List ℚ) (i : ℕ)
    (hlen : b2.length = b1.length) (hdot : dot b1 b2 ≠ 0) (hi : i < b1.length) :
    (∃ r, Probabilistic.combine b1 b2 = some r ∧ r.length = b1.length ∧
       r.getD i 0 = 1/10 * (1 / (b1.length : ℚ)) +
         (1 - 1/10) * (b1.getD i 0 * b2.getD i 0 / dot b1 b2))
    ∧ Probabilistic.combine [3/5, 2/5] [3/10, 7/10] = some [37/92, 55/92]
    ∧ |(37/92 : ℚ) - 402/1000| ≤ 1/2000 ∧ |(55/92 : ℚ) - 598/1000| ≤ 1/2000 := by
  refine ⟨?_, by norm_num [Probabilistic.combine, dot, List.range_succ],
    by rw [abs_le]; constructor <;> norm_num,
    by rw [abs_le]; constructor <;> norm_num⟩
  unfold Probabilistic.combine
  rw [if_neg hdot]
  refine ⟨_, rfl, by simp, ?_⟩
  rw [List.getD_eq_getElem?_getD, List.getElem?_map, List.getElem?_map,
    List.getElem?_range hi]
  simp

/-- Claim C4 witness: the general formula instantiated at index 0 of the quoted
scenario. -/
theorem probabilistic_combine_spec_witness :
    ∃ r, Probabilistic.combine [3/5, 2/5] [3/10, 7/10] = some r ∧
      r.length = ([3/5, 2/5] : List ℚ).length ∧
      r.getD 0 0 = 1/10 * (1 / (([3/5, 2/5] : List ℚ).length : ℚ)) +
        (1 - 1/10) * (([3/5, 2/5] : List ℚ).getD 0 0 * ([3/10, 7/10] : List ℚ).getD 0 0 /
          dot [3/5, 2/5] [3/10, 7/10]) :=
  (probabilistic_combine_spec [3/5, 2/5] [3/10, 7/10] 0 (by norm_num)
    (by norm_num [dot]) (by norm_num)).1

/-- Claim C5: beliefs with disjoint support have dot product 0, combine returns
none, and an update receiving none increments `since_change` by 1 while
leaving the belief, the derived relation and both counters unchanged. -/
theorem disjoint_combine_none (pa : ProbAgentState) :
    dot [1, 0] [0, 1] = 0
    ∧ Probabilistic.combine [1, 0] [0, 1] = none
    ∧ Probabilistic.update_preferences pa none =
        { pa with since_change := pa.since_change + 1 }
    ∧ Probabilistic.evidential_updating pa none =
        { pa with since_change := pa.since_change + 1 } :=
  ⟨by norm_num [dot], by norm_num [Probabilistic.combine, dot], rfl, rfl⟩

/-- Claim C10: the relation derived from a belief contains (x,y) exactly when the
belief mass of x exceeds that of y (for in-range indices), and it is
always irreflexive, asymmetric and transitively closed, independently of
the closure mode. -/
theorem identify_preferences_correct (belief : List ℚ) (x y : ℕ) :
    ((x, y) ∈ Probabilistic.identify_preferences belief ↔
      x < belief.length ∧ y < belief.length ∧ belief.getD y 0 < belief.getD x 0)
    ∧ IsIrreflRel (Probabilistic.identify_preferences belief)
    ∧ IsAsymmRel (Probabilistic.identify_preferences belief)
    ∧ IsTransClosedRel (Probabilistic.identify_preferences belief) := by
  refine ⟨mem_identify_preferences, ?_, isAsymmRel_identify_preferences belief, ?_⟩
  · intro a ha
    rw [mem_identify_preferences] at ha
    exact absurd ha.2.2 (lt_irrefl _)
  · intro a b c hab hbc
    rw [mem_identify_preferences] at hab hbc ⊢
    exact ⟨hab.1, hbc.2.1, hbc.2.2.trans hab.2.2⟩

/-- Claim C6: with no bandwidth limit, `Bandwidth.combine` returns a single
shared relation identical to the ordinal combine; with a limit it returns
a pair whose first component is agent 1's full relation unioned with an
at-most-`limit`-element subsample of agent 2's relation, consistency
filtered and closed when closure mode is on (that is, `Agent.combine`
applied to the full relation and the subsample), and symmetrically for
the second component; the scheduler applies a single relation to both
agents and a pair componentwise. -/
theorem bandwidth_combine_spec (fc : Bool) (sample : PrefRel → ℕ → PrefRel)
    (p1 p2 : PrefRel) (limit : ℕ) (a1 a2 : AgentState) (r r1 r2 : PrefRel)
    (h1 : sample p1 limit ⊆ p1)
    (h1c : limit ≤ p1.card → (sample p1 limit).card = limit)
    (h2 : sample p2 limit ⊆ p2)
    (h2c : limit ≤ p2.card → (sample p2 limit).card = limit) :
    Bandwidth.combine fc sample p1 p2 none = Sum.inl (Agent.combine fc p1 p2)
    ∧ (∃ s1 s2 : PrefRel, s1 ⊆ p1 ∧ s1.card ≤ limit ∧ s2 ⊆ p2 ∧ s2.card ≤ limit ∧
        Bandwidth.combine fc sample p1 p2 (some limit) =
          Sum.inr (Agent.combine fc p1 s2, Agent.combine fc s1 p2))
    ∧ apply_combine_result (Sum.inl r) a1 a2 =
        (Agent.update_preferences a1 r, Agent.update_preferences a2 r)
    ∧ apply_combine_result (Sum.inr (r1, r2)) a1 a2 =
        (Agent.update_preferences a1 r1, Agent.update_preferences a2 r2) := by
  refine ⟨rfl, ?_, rfl, rfl⟩
  refine ⟨if limit ≤ p1.card then sample p1 limit else p1,
    if limit ≤ p2.card then sample p2 limit else p2, ?_, ?_, ?_, ?_, ?_⟩
  · split
    · exact h1
    · exact Finset.Subset.refl p1
  · split
    · next h => exact (h1c h).le
    · next h => exact (Nat.lt_of_not_le h).le
  · split
    · exact h2
    · exact Finset.Subset.refl p2
  · split
    · next h => exact (h2c h).le
    · next h => exact (Nat.lt_of_not_le h).le
  · cases fc <;> simp [Bandwidth.combine, Agent.combine]

/-- Claim C6 witness: the pair-shaped result at concrete relations, with the
identity function as the sampling oracle. -/
theorem bandwidth_combine_spec_witness :
    ∃ s1 s2 : PrefRel, s1 ⊆ {(0,1)} ∧ s1.card ≤ 1 ∧ s2 ⊆ {(2,1)} ∧ s2.card ≤ 1 ∧
      Bandwidth.combine false (fun s _ => s) {(0,1)} {(2,1)} (some 1) =
        Sum.inr (Agent.combine false {(0,1)} s2, Agent.combine false s1 {(2,1)}) :=
  (bandwidth_combine_spec false (fun s _ => s) {(0,1)} {(2,1)} 1
    ⟨∅, 0, 0, 0⟩ ⟨∅, 0, 0, 0⟩ ∅ ∅ ∅
    (by decide) (by decide) (by decide) (by decide)).2.1

/-- Claim C9 counterexample: a configuration with `states = 1 < 2` and
`connectivity = 2 ∉ [0,1]` passes trial setup (the run proceeds to agent
creation), so invalid configurations are not rejected; moreover for the
bandwidth variant the limit is always derived from `states`, so a missing
`bandwidth_limit` cannot occur. -/
theorem invalid_config_not_rejected :
    setup_accepts 1 2 (some 2) none = true
    ∧ bandwidth_limit_of AgentVariant.bandwidth 1 = some 1 := by
  exact ⟨rfl, rfl⟩

/-- Claim C9 (amended): the only rejection at trial setup is a connectivity that
is missing after defaulting; `states`, `agents` and the connectivity range
are never validated, and `bandwidth_limit` is unconditionally derived
(`states` for the bandwidth variant, None otherwise), so it can never be
missing. -/
theorem setup_validation_spec (s a : ℤ) (c d : Option ℚ) (st : ℤ) :
    (setup_accepts s a c d = true ↔ (c.isSome = true ∨ d.isSome = true))
    ∧ bandwidth_limit_of AgentVariant.bandwidth st = some st
    ∧ (∀ v : AgentVariant, v ≠ AgentVariant.bandwidth →
        bandwidth_limit_of v st = none) := by
  refine ⟨?_, rfl, ?_⟩
  · cases c <;> simp [setup_accepts, resolve_connectivity]
  · intro v hv
    simp [bandwidth_limit_of, hv]

/-! ## The Round Scheduler (src/world.py, main_loop, lines 79-171)

The scheduler is modelled for the ordinal branch of world.main_loop
(the dispatch on the agent type at lines 96-120 and 149-154 picks the
plain `Agent.combine` there).  The per-round random draws are oracles:
`receives v` models `random() <= evidence_rate` for agent `v`,
`pick v` models the evidence sampling inside `find_evidence`,
`rand_gt v` models the noise test, and `edge_pick` models
`random_instance.choice(list(network_copy.edges))`, returning none
exactly on the IndexError branch (empty edge list). -/

/-- src/world.py lines 164-165: removing a node from the working copy of
the network deletes every edge incident to it. -/
def remove_node (v : ℕ) (E : Finset Pair) : Finset Pair :=
  E.filter (fun e => e.1 ≠ v ∧ e.2 ≠ v)

/-- src/world.py lines 138-141: one edge per round by default, otherwise
`int(num_nodes * fusion_rate / 100)` edges. -/
def num_of_edges (fusion_rate : Option ℚ) (num_nodes : ℕ) : ℕ :=
  match fusion_rate with
  | none => 1
  | some r => Int.toNat ⌊(num_nodes : ℚ) * (r / 100)⌋

/-- The body of the evidence-phase loop for one agent (src/world.py lines
93-120, ordinal branch): with the evidence-rate draw successful, combine
the agent's relation with freshly drawn evidence and apply the evidential
update; otherwise leave the agent untouched. -/
def evidence_step (fc : Bool) (receives : ℕ → Bool) (pick : ℕ → PrefRel → Option Pair)
    (noise_none : Bool) (rand_gt : ℕ → Bool) (true_prefs : PrefRel) (v : ℕ)
    (a : AgentState) : AgentState :=
  if receives v then
    Agent.evidential_updating a
      (Agent.combine fc a.preferences
        (Agent.find_evidence (pick v) noise_none (rand_gt v) a.preferences true_prefs))
  else a

/-- The evidence-phase fold over the agent population, carrying the agent
map and the running conjunction `reached_convergence` (src/world.py lines
90-122). -/
def evidence_fold (fc : Bool) (threshold : ℕ) (receives : ℕ → Bool)
    (pick : ℕ → PrefRel → Option Pair) (noise_none : Bool) (rand_gt : ℕ → Bool)
    (true_prefs : PrefRel) (nodes : List ℕ) (init : (ℕ → AgentState) × Bool) :
    (ℕ → AgentState) × Bool :=
  nodes.foldl
    (fun acc v =>
      let st' := Function.update acc.1 v
        (evidence_step fc receives pick noise_none rand_gt true_prefs v (acc.1 v))
      (st', acc.2 && Agent.steady_state (st' v) threshold))
    init

/-- The evidence phase: the fold started from the current agent map with
`reached_convergence = True` (src/world.py line 90). -/
def evidence_phase (fc : Bool) (threshold : ℕ) (receives : ℕ → Bool)
    (pick : ℕ → PrefRel → Option Pair) (noise_none : Bool) (rand_gt : ℕ → Bool)
    (true_prefs : PrefRel) (nodes : List ℕ) (st : ℕ → AgentState) :
    (ℕ → AgentState) × Bool :=
  evidence_fold fc threshold receives pick noise_none rand_gt true_prefs nodes (st, true)

/-- The fusion phase (src/world.py lines 134-165, symmetric mode, ordinal
branch): repeatedly pick an edge from the working copy, combine the two
endpoint agents' relations, update both with the shared result, and delete
both endpoints from the working copy; an exhausted edge list ends the
phase early.  Returns the updated agent map and the list of selected
edges. -/
def fusion_loop (fc : Bool) (edge_pick : Finset Pair → Option Pair) :
    ℕ → Finset Pair → (ℕ → AgentState) → (ℕ → AgentState) × List Pair
  | 0, _, st => (st, [])
  | q + 1, E, st =>
    match edge_pick E with
    | none => (st, [])
    | some e =>
      let new_preference :=
        Agent.combine fc (st e.1).preferences (st e.2).preferences
      let st1 := Function.update st e.1 (Agent.update_preferences (st e.1) new_preference)
      let st2 := Function.update st1 e.2 (Agent.update_preferences (st1 e.2) new_preference)
      let rest := fusion_loop fc edge_pick q (remove_node e.2 (remove_node e.1 E)) st2
      (rest.1, e :: rest.2)

/-- One round (src/world.py main_loop): evidence phase, then — unless the
whole population was observed converged (return False) or evidence-only
mode is set — the fusion phase; the Boolean is the Python return value
(False = stop, True = continue). -/
def main_loop (fc : Bool) (threshold : ℕ) (evidence_only : Bool) (fusion_rate : Option ℚ)
    (receives : ℕ → Bool) (pick : ℕ → PrefRel → Option Pair) (noise_none : Bool)
    (rand_gt : ℕ → Bool) (edge_pick : Finset Pair → Option Pair) (true_prefs : PrefRel)
    (nodes : List ℕ) (edges : Finset Pair) (st : ℕ → AgentState) :
    Bool × (ℕ → AgentState) :=
  let ep := evidence_phase fc threshold receives pick noise_none rand_gt true_prefs nodes st
  if ep.2 then (false, ep.1)
  else if evidence_only then (true, ep.1)
  else (true, (fusion_loop fc edge_pick (num_of_edges fusion_rate nodes.length) edges ep.1).1)

/-- The agents taking part in the selected interactions of a round. -/
def endpoints (log : List Pair) : List ℕ :=
  log.flatMap (fun e => [e.1, e.2])

/-! ## Scheduler lemmas -/

section Scheduler

variable {fc : Bool} {threshold : ℕ} {receives : ℕ → Bool}
  {pick : ℕ → PrefRel → Option Pair} {noise_none : Bool} {rand_gt : ℕ → Bool}
  {true_prefs : PrefRel}

lemma evidence_fold_cons (u : ℕ) (t : List ℕ) (init : (ℕ → AgentState) × Bool) :
    evidence_fold fc threshold receives pick noise_none rand_gt true_prefs (u :: t) init =
      evidence_fold fc threshold receives pick noise_none rand_gt true_prefs t
        (Function.update init.1 u
          (evidence_step fc receives pick noise_none rand_gt true_prefs u (init.1 u)),
         init.2 && Agent.steady_state
          (Function.update init.1 u
            (evidence_step fc receives pick noise_none rand_gt true_prefs u (init.1 u)) u)
          threshold) :=
  rfl

lemma evidence_fold_apply_not_mem (nodes : List ℕ) (init : (ℕ → AgentState) × Bool)
    (v : ℕ) (hv : v ∉ nodes) :
    (evidence_fold fc threshold receives pick noise_none rand_gt true_prefs nodes init).1 v
      = init.1 v := by
  induction nodes generalizing init with
  | nil => rfl
  | cons u t ih =>
    rw [evidence_fold_cons]
    rw [List.mem_cons, not_or] at hv
    rw [ih _ hv.2]
    exact Function.update_noteq hv.1 _ _

lemma evidence_fold_apply_mem (nodes : List ℕ) (init : (ℕ → AgentState) × Bool)
    (v : ℕ) (hnd : nodes.Nodup) (hv : v ∈ nodes) :
    (evidence_fold fc threshold receives pick noise_none rand_gt true_prefs nodes init).1 v
      = evidence_step fc receives pick noise_none rand_gt true_prefs v (init.1 v) := by
  induction nodes generalizing init with
  | nil => exact absurd hv (List.not_mem_nil v)
  | cons u t ih =>
    rw [List.nodup_cons] at hnd
    rw [evidence_fold_cons]
    rcases List.mem_cons.mp hv with h | h
    · subst h
      rw [evidence_fold_apply_not_mem t _ v hnd.1]
      exact Function.update_same v _ _
    · rw [ih _ hnd.2 h]
      have hne : v ≠ u := fun hc => hnd.1 (hc ▸ h)
      show evidence_step fc receives pick noise_none rand_gt true_prefs v
        (Function.update init.1 u
          (evidence_step fc receives pick noise_none rand_gt true_prefs u (init.1 u)) v) = _
      rw [Function.update_noteq hne]

lemma list_all_congr {l : List ℕ} {p q : ℕ → Bool} (h : ∀ x ∈ l, p x = q x) :
    l.all p = l.all q := by
  induction l with
  | nil => rfl
  | cons u t ih =>
    rw [List.all_cons, List.all_cons, h u (List.mem_cons_self u t),
      ih (fun x hx => h x (List.mem_cons_of_mem u hx))]

lemma evidence_fold_flag (nodes : List ℕ) (init : (ℕ → AgentState) × Bool)
    (hnd : nodes.Nodup) :
    (evidence_fold fc threshold receives pick noise_none rand_gt true_prefs nodes init).2
      = (init.2 && nodes.all (fun v =>
          Agent.steady_state
            (evidence_step fc receives pick noise_none rand_gt true_prefs v (init.1 v))
            threshold)) := by
  induction nodes generalizing init with
  | nil => simp [evidence_fold]
  | cons u t ih =>
    rw [List.nodup_cons] at hnd
    rw [evidence_fold_cons, ih _ hnd.2, List.all_cons]
    rw [Function.update_same]
    have harg : ∀ x ∈ t,
        Agent.steady_state
          (evidence_step fc receives pick noise_none rand_gt true_prefs x
            (Function.update init.1 u
              (evidence_step fc receives pick noise_none rand_gt true_prefs u (init.1 u)) x))
          threshold
        = Agent.steady_state
            (evidence_step fc receives pick noise_none rand_gt true_prefs x (init.1 x))
            threshold := by
      intro x hx
      have hne : x ≠ u := fun hc => hnd.1 (hc ▸ hx)
      rw [Function.update_noteq hne]
    rw [list_all_congr harg, Bool.and_assoc]

lemma evidence_phase_apply (nodes : List ℕ) (st : ℕ → AgentState) (v : ℕ)
    (hnd : nodes.Nodup) (hv : v ∈ nodes) :
    (evidence_phase fc threshold receives pick noise_none rand_gt true_prefs nodes st).1 v
      = evidence_step fc receives pick noise_none rand_gt true_prefs v (st v) :=
  evidence_fold_apply_mem nodes (st, true) v hnd hv

lemma evidence_phase_flag (nodes : List ℕ) (st : ℕ → AgentState) (hnd : nodes.Nodup) :
    (evidence_phase fc threshold receives pick noise_none rand_gt true_prefs nodes st).2
      = nodes.all (fun v =>
          Agent.steady_state
            (evidence_step fc receives pick noise_none rand_gt true_prefs v (st v))
            threshold) := by
  rw [evidence_phase, evidence_fold_flag nodes (st, true) hnd, Bool.true_and]

lemma mem_remove_node {v : ℕ} {E : Finset Pair} {e : Pair} :
    e ∈ remove_node v E ↔ e ∈ E ∧ e.1 ≠ v ∧ e.2 ≠ v := by
  simp [remove_node]

lemma fusion_loop_log_subset {edge_pick : Finset Pair → Option Pair}
    (hsound : ∀ (E' : Finset Pair) (e : Pair), edge_pick E' = some e → e ∈ E')
    (q : ℕ) (E : Finset Pair) (st : ℕ → AgentState) {e : Pair}
    (he : e ∈ (fusion_loop fc edge_pick q E st).2) : e ∈ E := by
  induction q generalizing E st with
  | zero => exact absurd he (List.not_mem_nil e)
  | succ q ih =>
    rw [fusion_loop] at he
    cases hp : edge_pick E with
    | none =>
      rw [hp] at he
      exact absurd he (List.not_mem_nil e)
    | some e0 =>
      rw [hp] at he
      simp only [List.mem_cons] at he
      rcases he with h | h
      · exact h ▸ hsound E e0 hp
      · have := ih _ _ h
        exact Finset.filter_subset _ _ (Finset.filter_subset _ _ this)

lemma mem_endpoints {log : List Pair} {x : ℕ} :
    x ∈ endpoints log ↔ ∃ e ∈ log, x = e.1 ∨ x = e.2 := by
  simp only [endpoints, List.mem_flatMap, List.mem_cons, List.mem_singleton,
    List.not_mem_nil, or_false]

lemma endpoints_cons (e : Pair) (log : List Pair) :
    endpoints (e :: log) = e.1 :: e.2 :: endpoints log :=
  rfl

lemma fusion_loop_log_succ {edge_pick : Finset Pair → Option Pair} {E : Finset Pair}
    {e0 : Pair} (hp : edge_pick E = some e0) (q : ℕ) (st : ℕ → AgentState) :
    ∃ st', (fusion_loop fc edge_pick (q + 1) E st).2 =
      e0 :: (fusion_loop fc edge_pick q (remove_node e0.2 (remove_node e0.1 E)) st').2 :=
  ⟨_, by rw [fusion_loop, hp]⟩

lemma fusion_loop_endpoints_nodup {edge_pick : Finset Pair → Option Pair}
    (hsound : ∀ (E' : Finset Pair) (e : Pair), edge_pick E' = some e → e ∈ E')
    (q : ℕ) (E : Finset Pair) (st : ℕ → AgentState)
    (hsimple : ∀ e ∈ E, e.1 ≠ e.2) :
    (endpoints (fusion_loop fc edge_pick q E st).2).Nodup := by
  induction q generalizing E st with
  | zero => exact List.nodup_nil
  | succ q ih =>
    cases hp : edge_pick E with
    | none =>
      rw [fusion_loop, hp]
      exact List.nodup_nil
    | some e0 =>
      have he0 : e0 ∈ E := hsound E e0 hp
      have hne : e0.1 ≠ e0.2 := hsimple e0 he0
      obtain ⟨st', hlog⟩ := fusion_loop_log_succ hp q st
      rw [hlog, endpoints_cons]
      have hrest : ∀ x ∈ endpoints
          (fusion_loop fc edge_pick q (remove_node e0.2 (remove_node e0.1 E)) st').2,
          x ≠ e0.1 ∧ x ≠ e0.2 := by
        intro x hx
        rcases mem_endpoints.mp hx with ⟨e, he, hor⟩
        have heE := fusion_loop_log_subset hsound q _ _ he
        rw [mem_remove_node] at heE
        have he1 := heE.1
        rw [mem_remove_node] at he1
        rcases hor with h | h
        · exact ⟨h ▸ he1.2.1, h ▸ heE.2.1⟩
        · exact ⟨h ▸ he1.2.2, h ▸ heE.2.2⟩
      rw [List.nodup_cons, List.nodup_cons]
      refine ⟨?_, ?_, ?_⟩
      · intro hmem
        rcases List.mem_cons.mp hmem with h | h
        · exact hne h
        · exact (hrest _ h).1 rfl
      · intro hmem
        exact (hrest _ hmem).2 rfl
      · refine ih _ _ ?_
        intro e he
        rw [mem_remove_node] at he
        have he1 := he.1
        rw [mem_remove_node] at he1
        exact hsimple e he1.1

lemma fusion_loop_empty {edge_pick : Finset Pair → Option Pair}
    (hsound : ∀ (E' : Finset Pair) (e : Pair), edge_pick E' = some e → e ∈ E')
    (q : ℕ) (st : ℕ → AgentState) :
    fusion_loop fc edge_pick q ∅ st = (st, []) := by
  cases q with
  | zero => rfl
  | succ q =>
    have hnone : edge_pick ∅ = none := by
      cases hp : edge_pick ∅ with
      | none => rfl
      | some e => exact absurd (hsound ∅ e hp) (Finset.not_mem_empty e)
    rw [fusion_loop, hnone]

lemma main_loop_fst {evidence_only : Bool} {fusion_rate : Option ℚ}
    {edge_pick : Finset Pair → Option Pair} {nodes : List ℕ} {edges : Finset Pair}
    {st : ℕ → AgentState} :
    (main_loop fc threshold evidence_only fusion_rate receives pick noise_none rand_gt
        edge_pick true_prefs nodes edges st).1
      = !(evidence_phase fc threshold receives pick noise_none rand_gt true_prefs
          nodes st).2 := by
  unfold main_loop
  cases h : (evidence_phase fc threshold receives pick noise_none rand_gt true_prefs
      nodes st).2
  · cases evidence_only <;> simp [h]
  · simp [h]

lemma main_loop_snd_stop {evidence_only : Bool} {fusion_rate : Option ℚ}
    {edge_pick : Finset Pair → Option Pair} {nodes : List ℕ} {edges : Finset Pair}
    {st : ℕ → AgentState}
    (h : (evidence_phase fc threshold receives pick noise_none rand_gt true_prefs
      nodes st).2 = true) :
    (main_loop fc threshold evidence_only fusion_rate receives pick noise_none rand_gt
        edge_pick true_prefs nodes edges st).2
      = (evidence_phase fc threshold receives pick noise_none rand_gt true_prefs
          nodes st).1 := by
  simp [main_loop, h]

end Scheduler

set_option maxRecDepth 8000 in
/-- Claim C7 counterexample: a concrete round in which the single agent
already has `since_change = 100 ≥ threshold = 100`, yet the scheduler
signals "continue" (Python return value True) and mutates the agent:
the evidence phase runs before the convergence check, the agent draws the
unknown pair (1,0), its relation changes from ∅ to {(1,0)} and its
counter resets, so convergence is not monotone in the claimed sense. -/
theorem convergence_not_monotone :
    (∀ v ∈ ([0] : List ℕ),
      100 ≤ ((fun _ => (⟨∅, 0, 0, 100⟩ : AgentState)) v).since_change)
    ∧ (main_loop false 100 false none (fun _ => true)
        (fun _ s => if (1,0) ∈ s then some ((1,0) : Pair) else none) true (fun _ => false)
        (fun _ => none) {(1,0)} [0] ∅ (fun _ => ⟨∅, 0, 0, 100⟩)).1 = true
    ∧ ((main_loop false 100 false none (fun _ => true)
        (fun _ s => if (1,0) ∈ s then some ((1,0) : Pair) else none) true (fun _ => false)
        (fun _ => none) {(1,0)} [0] ∅ (fun _ => ⟨∅, 0, 0, 100⟩)).2 0).preferences
      = {(1,0)} := by
  decide

/-- Claim C7 (amended): the scheduler signals "stop" (returns False)
exactly when every agent's `has_converged` is observed true during the
round's evidence phase (after that agent's own possible update); the
fusion phase of a stopping round is skipped entirely (the returned agent
map is the evidence-phase map); and once `since_change ≥ threshold` for
every agent, the round signals "stop" with no agent's relation mutated
provided the round's evidence draws leave every agent's relation
unchanged. -/
theorem scheduler_termination (fc : Bool) (threshold : ℕ) (evidence_only : Bool)
    (fusion_rate : Option ℚ) (receives : ℕ → Bool) (pick : ℕ → PrefRel → Option Pair)
    (noise_none : Bool) (rand_gt : ℕ → Bool) (edge_pick : Finset Pair → Option Pair)
    (true_prefs : PrefRel) (nodes : List ℕ) (edges : Finset Pair) (st : ℕ → AgentState)
    (hnd : nodes.Nodup) :
    ((main_loop fc threshold evidence_only fusion_rate receives pick noise_none rand_gt
        edge_pick true_prefs nodes edges st).1 = false ↔
      ∀ v ∈ nodes, Agent.steady_state
        ((evidence_phase fc threshold receives pick noise_none rand_gt true_prefs
          nodes st).1 v) threshold = true)
    ∧ ((evidence_phase fc threshold receives pick noise_none rand_gt true_prefs
          nodes st).2 = true →
        (main_loop fc threshold evidence_only fusion_rate receives pick noise_none rand_gt
            edge_pick true_prefs nodes edges st).2
          = (evidence_phase fc threshold receives pick noise_none rand_gt true_prefs
              nodes st).1)
    ∧ ((∀ v ∈ nodes, threshold ≤ (st v).since_change) →
       (∀ v ∈ nodes,
          (evidence_step fc receives pick noise_none rand_gt true_prefs v (st v)).preferences
            = (st v).preferences) →
       ((main_loop fc threshold evidence_only fusion_rate receives pick noise_none rand_gt
          edge_pick true_prefs nodes edges st).1 = false
        ∧ ∀ v ∈ nodes,
            ((main_loop fc threshold evidence_only fusion_rate receives pick noise_none
              rand_gt edge_pick true_prefs nodes edges st).2 v).preferences
              = (st v).preferences)) := by
  have hflag := @evidence_phase_flag fc threshold receives pick noise_none rand_gt
    true_prefs nodes st hnd
  refine ⟨?_, fun h => main_loop_snd_stop h, ?_⟩
  · rw [main_loop_fst, Bool.not_eq_false', hflag, List.all_eq_true]
    constructor
    · intro hall v hv
      rw [evidence_phase_apply nodes st v hnd hv]
      exact hall v hv
    · intro hall v hv
      have h := hall v hv
      rw [evidence_phase_apply nodes st v hnd hv] at h
      exact h
  · intro hconv hnc
    have hsteady : ∀ v ∈ nodes,
        Agent.steady_state
          (evidence_step fc receives pick noise_none rand_gt true_prefs v (st v))
          threshold = true := by
      intro v hv
      simp only [Agent.steady_state, decide_eq_true_eq]
      by_cases hr : receives v = true
      · have hpref := hnc v hv
        rw [evidence_step, if_pos hr] at hpref
        have hnewp : Agent.combine fc (st v).preferences
            (Agent.find_evidence (pick v) noise_none (rand_gt v) (st v).preferences
              true_prefs)
            = (st v).preferences := hpref
        rw [evidence_step, if_pos hr]
        show threshold ≤ if Agent.combine fc (st v).preferences
            (Agent.find_evidence (pick v) noise_none (rand_gt v) (st v).preferences
              true_prefs) = (st v).preferences
          then (st v).since_change + 1 else 0
        rw [if_pos hnewp]
        exact (hconv v hv).trans (Nat.le_succ _)
      · rw [evidence_step, if_neg hr]
        exact hconv v hv
    have hep2 : (evidence_phase fc threshold receives pick noise_none rand_gt true_prefs
        nodes st).2 = true := by
      rw [hflag, List.all_eq_true]
      exact hsteady
    refine ⟨by rw [main_loop_fst, hep2]; rfl, ?_⟩
    intro v hv
    rw [main_loop_snd_stop hep2, evidence_phase_apply nodes st v hnd hv]
    exact hnc v hv

/-- Claim C7 witness: the stop-iff-all-converged characterisation at a
concrete one-agent network. -/
theorem scheduler_termination_witness :
    (main_loop false 0 false none (fun _ => false) (fun _ _ => none) true (fun _ => false)
        (fun _ => none) ∅ [0] ∅ (fun _ => ⟨∅, 0, 0, 0⟩)).1 = false ↔
      ∀ v ∈ ([0] : List ℕ), Agent.steady_state
        ((evidence_phase false 0 (fun _ => false) (fun _ _ => none) true (fun _ => false)
          ∅ [0] (fun _ => ⟨∅, 0, 0, 0⟩)).1 v) 0 = true :=
  (scheduler_termination false 0 false none (fun _ => false) (fun _ _ => none) true
    (fun _ => false) (fun _ => none) ∅ [0] ∅ (fun _ => ⟨∅, 0, 0, 0⟩) (by decide)).1

/-- Claim C8: in the fusion phase no agent takes part in more than one
interaction per round (the endpoints of the selected edges are pairwise
distinct, because both endpoints are removed from the working copy after
each interaction); an exhausted working edge set ends the round early with
the agents returned unchanged (a normal value, not an error); and the
default edge quota is 1 per round. -/
theorem fusion_phase_no_reuse (fc : Bool) (edge_pick : Finset Pair → Option Pair)
    (q n : ℕ) (E : Finset Pair) (st : ℕ → AgentState)
    (hsound : ∀ (E' : Finset Pair) (e : Pair), edge_pick E' = some e → e ∈ E')
    (hsimple : ∀ e ∈ E, e.1 ≠ e.2) :
    (endpoints (fusion_loop fc edge_pick q E st).2).Nodup
    ∧ fusion_loop fc edge_pick q ∅ st = (st, [])
    ∧ num_of_edges none n = 1 :=
  ⟨fusion_loop_endpoints_nodup hsound q E st hsimple,
   fusion_loop_empty hsound q st,
   rfl⟩

/-- Claim C8 witness: a concrete one-edge network with a deterministic
edge picker. -/
theorem fusion_phase_no_reuse_witness :
    (endpoints (fusion_loop false
        (fun E => if (0,1) ∈ E then some ((0,1) : Pair) else none)
        1 {(0,1)} (fun _ => ⟨∅, 0, 0, 0⟩)).2).Nodup
    ∧ fusion_loop false (fun E => if (0,1) ∈ E then some ((0,1) : Pair) else none)
        1 ∅ (fun _ => ⟨∅, 0, 0, 0⟩) = ((fun _ => ⟨∅, 0, 0, 0⟩), [])
    ∧ num_of_edges none 5 = 1 :=
  fusion_phase_no_reuse false
    (fun E => if (0,1) ∈ E then some ((0,1) : Pair) else none)
    1 5 {(0,1)} (fun _ => ⟨∅, 0, 0, 0⟩)
    (by
      intro E' e h
      have h' : (if ((0,1) : Pair) ∈ E' then some ((0,1) : Pair) else none) = some e := h
      by_cases hm : ((0,1) : Pair) ∈ E'
      · rw [if_pos hm] at h'
        exact (Option.some.inj h') ▸ hm
      · rw [if_neg hm] at h'
        exact Option.noConfusion h')
    (by decide)

end PDDM
